import Mathlib

set_option linter.unusedVariables false
set_option linter.unreachableTactic false
set_option linter.unusedTactic false

/-!
Verification of the etree path compiler and evaluator.

The Go source is shallowly embedded: path strings are lists of characters,
tokens and compiled paths are inductive data, element trees are an arena of
element records addressed by natural-number handles (element identity is the
handle), and every Go function used by the claims is translated into a
computable Lean function of the same name wherever possible.
-/

/-- Decidable equality for Except results, used to evaluate the embedded
functions on concrete inputs. -/
instance {e a : Type} [DecidableEq e] [DecidableEq a] : DecidableEq (Except e a) := fun x y =>
  match x, y with
  | .ok u, .ok v =>
    if h : u = v then .isTrue (by rw [h]) else .isFalse (by intro hc; cases hc; exact h rfl)
  | .error u, .error v =>
    if h : u = v then .isTrue (by rw [h]) else .isFalse (by intro hc; cases hc; exact h rfl)
  | .ok _, .error _ => .isFalse (by intro hc; cases hc)
  | .error _, .ok _ => .isFalse (by intro hc; cases hc)

namespace Etree

/-- Characters of a path string.  The source's tstring is modelled as a list
of runes; this is faithful for the byte-level lookahead the tokenizer does
(`s[1] == '/'` and the like) because the bytes examined are ASCII and UTF-8
continuation bytes are never ASCII. -/
abbrev Str := List Char

/-- Single error kind of the subsystem, ErrPathSyntax. -/
inductive PathErr where
  | pathSyntax
deriving DecidableEq

/-- Token identifiers, mirroring the tokenID constants. -/
inductive TokID where
  | nil
  | sep
  | sepRecurse
  | lbracket
  | rbracket
  | lparen
  | rparen
  | union
  | equal
  | colon
  | atSign
  | self
  | parent
  | children
  | string
  | identifier
  | number
  | eol
deriving DecidableEq

/-- A token: identifier plus lexeme value. -/
structure Token where
  id : TokID
  value : Str
deriving DecidableEq

/-- Lexeme classes from the low 6 bits of the lexHint0 table. -/
inductive LexClass where
  | lNil
  | lIde
  | lLbr
  | lRbr
  | lLpa
  | lRpa
  | lWld
  | lSep
  | lNum
  | lUni
  | lSub
  | lDot
  | lQuo
  | lAtt
  | lEqu
  | lCol
deriving DecidableEq

/-- Character predicate whitespace: space or tab. -/
def whitespace (r : Char) : Bool := r = ' ' || r = '\t'

/-- Character predicate decimal: an ASCII digit. -/
def decimal (r : Char) : Bool := decide (48 ≤ r.toNat ∧ r.toNat ≤ 57)

/-- Lexeme class of an ASCII character, transliterating the lexHint0 table. -/
def lexHint0Class (c : Char) : LexClass :=
  if c = '"' ∨ c = '\'' then .lQuo
  else if c = '(' then .lLpa
  else if c = ')' then .lRpa
  else if c = '*' then .lWld
  else if c = '-' then .lSub
  else if c = '.' then .lDot
  else if c = '/' then .lSep
  else if decimal c then .lNum
  else if c = ':' then .lCol
  else if c = '=' then .lEqu
  else if c = '@' then .lAtt
  else if c = '[' then .lLbr
  else if c = ']' then .lRbr
  else if c = '_' then .lIde
  else if c = '|' then .lUni
  else if decide (65 ≤ c.toNat ∧ c.toNat ≤ 90) ∨ decide (97 ≤ c.toNat ∧ c.toNat ≤ 122) then .lIde
  else .lNil

/-- The xIdentStart bit of the lexHint0 table.  The table entry for capital A
(code 65) is `x0 | lIde`: it carries the lIde class but neither identifier
bit, unlike codes 66-90; this anomaly of the source table is preserved. -/
def xIdentStartBit (c : Char) : Bool :=
  decide (66 ≤ c.toNat ∧ c.toNat ≤ 90) || decide (c.toNat = 95) ||
    decide (97 ≤ c.toNat ∧ c.toNat ≤ 122)

/-- The xIdentChar bit of the lexHint0 table (also set on minus, dot and the
digits). -/
def xIdentCharBit (c : Char) : Bool :=
  xIdentStartBit c || decide (c.toNat = 45) || decide (c.toNat = 46) || decimal c

/-- identifierStart from the source. -/
def identifierStart (r : Char) : Bool :=
  if r.toNat < 128 then xIdentStartBit r
  else
    decide ((0xc0 ≤ r.toNat ∧ r.toNat ≤ 0xd6) ∨ (0xd8 ≤ r.toNat ∧ r.toNat ≤ 0xf6) ∨
      (0xf8 ≤ r.toNat ∧ r.toNat ≤ 0x2ff) ∨ (0x370 ≤ r.toNat ∧ r.toNat ≤ 0x37d) ∨
      (0x37f ≤ r.toNat ∧ r.toNat ≤ 0x1fff) ∨ (0x200c ≤ r.toNat ∧ r.toNat ≤ 0x200d) ∨
      (0x2070 ≤ r.toNat ∧ r.toNat ≤ 0x218f) ∨ (0x2c00 ≤ r.toNat ∧ r.toNat ≤ 0x2fef) ∨
      (0x3001 ≤ r.toNat ∧ r.toNat ≤ 0xd7ff) ∨ (0xf900 ≤ r.toNat ∧ r.toNat ≤ 0xfdcf) ∨
      (0xfdf0 ≤ r.toNat ∧ r.toNat ≤ 0xfffd))

/-- identifier (continuation character) from the source. -/
def identifier (r : Char) : Bool :=
  if r.toNat < 128 then xIdentCharBit r
  else if identifierStart r then true
  else
    decide (r.toNat = 0xb7 ∨ (0x300 ≤ r.toNat ∧ r.toNat ≤ 0x36f) ∨
      (0x203f ≤ r.toNat ∧ r.toNat ≤ 0x2040))

/-- tstring.consumeWhitespace. -/
def consumeWhitespace (s : Str) : Str := s.dropWhile whitespace

/-- tokenizeIdentifier: consume the longest identifier-character run. -/
def tokenizeIdentifier (s : Str) : Except PathErr (Token × Str) :=
  .ok (⟨.identifier, s.takeWhile identifier⟩, s.dropWhile identifier)

/-- tokenizeSlash: a double slash yields sep_recurse, otherwise sep. -/
def tokenizeSlash (s : Str) : Except PathErr (Token × Str) :=
  match s with
  | _ :: c2 :: rest =>
    if c2 = '/' then .ok (⟨.sepRecurse, []⟩, rest)
    else .ok (⟨.sep, []⟩, c2 :: rest)
  | _ => .ok (⟨.sep, []⟩, s.drop 1)

/-- tokenizeNumber: consume the longest digit run. -/
def tokenizeNumber (s : Str) : Except PathErr (Token × Str) :=
  .ok (⟨.number, s.takeWhile decimal⟩, s.dropWhile decimal)

/-- tokenizeMinus: a minus must be followed by at least one digit; the token
value keeps the sign. -/
def tokenizeMinus (s : Str) : Except PathErr (Token × Str) :=
  match s with
  | _ :: rest =>
    let num := rest.takeWhile decimal
    if num = [] then .error .pathSyntax
    else .ok (⟨.number, '-' :: num⟩, rest.dropWhile decimal)
  | [] => .error .pathSyntax

/-- tokenizeDot: a double dot yields parent, otherwise self. -/
def tokenizeDot (s : Str) : Except PathErr (Token × Str) :=
  match s with
  | _ :: c2 :: rest =>
    if c2 = '.' then .ok (⟨.parent, []⟩, rest)
    else .ok (⟨.self, []⟩, c2 :: rest)
  | _ => .ok (⟨.self, []⟩, s.drop 1)

/-- Split a string at the first occurrence of the character q; none when q
does not occur. -/
def splitAtChar (q : Char) : Str → Option (Str × Str)
  | [] => none
  | c :: rest =>
    if c = q then some ([], rest)
    else (splitAtChar q rest).map (fun p => (c :: p.1, p.2))

/-- tokenizeQuote: the string content runs to the next matching quote; an
unterminated string is a syntax error. -/
def tokenizeQuote (s : Str) : Except PathErr (Token × Str) :=
  match s with
  | quot :: rest =>
    match splitAtChar quot rest with
    | some p => .ok (⟨.string, p.1⟩, p.2)
    | none => .error .pathSyntax
  | [] => .error .pathSyntax

/-- tokenizeLexeme: dispatch on the first character's lexeme class.  A class
without a tokenize function yields its single-character token (tokNil for the
lNil class, which the caller turns into an error); a character of 128 or more
must be an identifier start. -/
def tokenizeLexeme (s : Str) : Except PathErr (Token × Str) :=
  match s with
  | [] => .ok (⟨.nil, []⟩, [])
  | r :: rest =>
    if r.toNat < 128 then
      match lexHint0Class r with
      | .lNil => .ok (⟨.nil, []⟩, rest)
      | .lIde => tokenizeIdentifier s
      | .lLbr => .ok (⟨.lbracket, []⟩, rest)
      | .lRbr => .ok (⟨.rbracket, []⟩, rest)
      | .lLpa => .ok (⟨.lparen, []⟩, rest)
      | .lRpa => .ok (⟨.rparen, []⟩, rest)
      | .lWld => .ok (⟨.children, []⟩, rest)
      | .lSep => tokenizeSlash s
      | .lNum => tokenizeNumber s
      | .lUni => .ok (⟨.union, []⟩, rest)
      | .lSub => tokenizeMinus s
      | .lDot => tokenizeDot s
      | .lQuo => tokenizeQuote s
      | .lAtt => .ok (⟨.atSign, []⟩, rest)
      | .lEqu => .ok (⟨.equal, []⟩, rest)
      | .lCol => .ok (⟨.colon, []⟩, rest)
    else if identifierStart r then tokenizeIdentifier s
    else .error .pathSyntax

/-- The tokenizePath loop.  Each genuine lexeme consumes at least one
character, so fuel `length + 1` is reached only when an iteration makes no
progress, in which case the Go loop runs forever; `none` models that
divergence (reachable: the table classifies capital A as lIde without the
identifier bits, so tokenizeIdentifier consumes nothing there). -/
def tokenizeLoop : Nat → Str → Option (Except PathErr (List Token))
  | _, [] => some (.ok [])
  | 0, _ :: _ => none
  | fuel + 1, s =>
    match tokenizeLexeme s with
    | .error e => some (.error e)
    | .ok (tok, remain) =>
      if tok.id = .nil then some (.error .pathSyntax)
      else
        match tokenizeLoop fuel (consumeWhitespace remain) with
        | none => none
        | some (.error e) => some (.error e)
        | some (.ok toks) => some (.ok (tok :: toks))

/-- compiler.tokenizePath. -/
def tokenizePath (path : Str) : Option (Except PathErr (List Token)) :=
  tokenizeLoop (path.length + 1) (consumeWhitespace path)

end Etree

namespace Etree

/-- Function kinds of the fnTable: the five accessor functions usable in
function filters. -/
inductive FnKind where
  | localName
  | fullName
  | nsPfx
  | nsUri
  | textFn
deriving DecidableEq

/-- The closed union of selector variants (the Go selector interface). -/
inductive Selector where
  | root
  | self
  | parent
  | children
  | childrenByTag (space tag : Str)
  | descendants
deriving DecidableEq

/-- The closed union of filter-expression variants (the Go filterExpr
interface). -/
inductive FilterExpr where
  | index (i : Int)
  | attrib (space key : Str)
  | attribValue (space key value : Str)
  | child (space tag : Str)
  | childText (space tag value : Str)
  | existsFunc (fn : FnKind)
  | valueFunc (fn : FnKind) (val : Str)
deriving DecidableEq

/-- A filter: union of filter expressions. -/
structure Filter where
  exprs : List FilterExpr
deriving DecidableEq

/-- A segment expression: selector plus filters applied in sequence. -/
structure SegmentExpr where
  sel : Selector
  filters : List Filter
deriving DecidableEq

/-- A segment: union of segment expressions. -/
structure Segment where
  exprs : List SegmentExpr
deriving DecidableEq

/-- A compiled Path: its ordered segments. -/
structure Path where
  segments : List Segment
deriving DecidableEq

/-- The rootSegment value. -/
def rootSegment : Segment := ⟨[⟨.root, []⟩]⟩

/-- The descendantsSegment value. -/
def descendantsSegment : Segment := ⟨[⟨.descendants, []⟩]⟩

/-- fnTable: map a function name to its accessor. -/
def fnTable (name : Str) : Option FnKind :=
  if name = ['l', 'o', 'c', 'a', 'l', '-', 'n', 'a', 'm', 'e'] then some .localName
  else if name = ['n', 'a', 'm', 'e'] then some .fullName
  else if name = ['n', 'a', 'm', 'e', 's', 'p', 'a', 'c', 'e', '-', 'p', 'r', 'e', 'f', 'i', 'x'] then
    some .nsPfx
  else if name = ['n', 'a', 'm', 'e', 's', 'p', 'a', 'c', 'e', '-', 'u', 'r', 'i'] then some .nsUri
  else if name = ['t', 'e', 'x', 't'] then some .textFn
  else none

/-- Numeric value of a digit string. -/
def digitsVal (ds : Str) : Nat := ds.foldl (fun a c => a * 10 + (c.toNat - 48)) 0

/-- Go's strconv.Atoi as used by the filter-index parser: the error result is
discarded there, so invalid syntax yields 0; out-of-range values are clamped
to the 64-bit int bounds (ParseInt returns the clamped value together with the
discarded range error). -/
def goAtoi (s : Str) : Int :=
  match s with
  | [] => 0
  | c :: ds =>
    if c = '-' then
      if ds ≠ [] ∧ ds.all decimal then max (-(digitsVal ds : Int)) (-(2 ^ 63)) else 0
    else if c = '+' then
      if ds ≠ [] ∧ ds.all decimal then min (digitsVal ds : Int) (2 ^ 63 - 1) else 0
    else if (c :: ds).all decimal then min (digitsVal (c :: ds) : Int) (2 ^ 63 - 1) else 0

/-- tokens.peekID: the id of the head token, or tokEOL when exhausted. -/
def peekID (t : List Token) : TokID :=
  match t with
  | [] => .eol
  | tok :: _ => tok.id

/-- A parse result: the parsed value together with the remaining tokens and
the fact that parsing never lengthens the token list (needed to justify the
termination of the recursive-descent functions). -/
structure PRes (α : Type) (n : Nat) where
  val : α
  rest : List Token
  hle : rest.length ≤ n

/-- Forget the length bound of a parse result. -/
def PRes.out {α : Type} {n : Nat} (r : PRes α n) : α × List Token := (r.val, r.rest)

theorem peekID_ne_eol_ne_nil {t : List Token} (h : peekID t ≠ .eol) : t ≠ [] := by
  intro hn
  rw [hn] at h
  exact h rfl

theorem peekID_eq_ne_nil {t : List Token} {i : TokID} (hi : i ≠ .eol) (h : peekID t = i) :
    t ≠ [] := by
  intro hn
  rw [hn] at h
  exact hi h.symm

/-- compiler.parseName: `name ::= ident | ident ':' ident`.  Faithful to the
source, the first token's id is never checked; only the token after a colon
must be an identifier. -/
def parseName : (toks : List Token) → Except PathErr (PRes (Str × Str) toks.length)
  | [] => .ok ⟨([], []), [], Nat.le_refl 0⟩
  | [t] => .ok ⟨([], t.value), [], by simp⟩
  | [t, c] =>
    if c.id = .colon then .error .pathSyntax
    else .ok ⟨([], t.value), [c], by simp⟩
  | t :: c :: t2 :: rest3 =>
    if c.id = .colon then
      if t2.id = .identifier then
        .ok ⟨(t.value, t2.value), rest3, by simp only [List.length_cons]; omega⟩
      else .error .pathSyntax
    else .ok ⟨([], t.value), c :: t2 :: rest3, by simp only [List.length_cons]; omega⟩

/-- compiler.parseSelector. -/
def parseSelector (toks : List Token) : Except PathErr (PRes Selector toks.length) :=
  if peekID toks = .self then .ok ⟨.self, toks.tail, by simp [List.length_tail]⟩
  else if peekID toks = .parent then .ok ⟨.parent, toks.tail, by simp [List.length_tail]⟩
  else if peekID toks = .children then .ok ⟨.children, toks.tail, by simp [List.length_tail]⟩
  else if peekID toks = .identifier then
    match parseName toks with
    | .error e => .error e
    | .ok r => .ok ⟨.childrenByTag r.val.1 r.val.2, r.rest, r.hle⟩
  else .error .pathSyntax

theorem len_tail_le (t : List Token) : t.tail.length ≤ t.length := by
  cases t <;> simp

theorem len_tail_lt {t : List Token} (h : t ≠ []) : t.tail.length < t.length := by
  cases t with
  | nil => exact absurd rfl h
  | cons a r => simp

mutual

/-- compiler.parseSegment: one or more segment expressions joined by the
union token. -/
def parseSegment (toks : List Token) : Except PathErr (PRes (List SegmentExpr) toks.length) :=
  match parseSegmentExpr toks with
  | .error e => .error e
  | .ok r1 =>
    if hu : peekID r1.rest = .union then
      match parseSegment r1.rest.tail with
      | .error e => .error e
      | .ok r2 =>
        .ok ⟨r1.val ++ r2.val, r2.rest, by
          have h1 := r1.hle
          have h2 := r2.hle
          have h3 := len_tail_le r1.rest
          omega⟩
    else .ok ⟨r1.val, r1.rest, r1.hle⟩
termination_by (toks.length, 4)
decreasing_by
  all_goals simp_wf
  all_goals
    first
      | exact Prod.Lex.right _ (by omega)
      | (apply Prod.Lex.left
         first
           | (have h1 := r1.hle
              have h3 : 0 < r1.rest.length :=
                List.length_pos.mpr (peekID_eq_ne_nil (by decide) hu)
              omega)
           | (have h3 : 0 < toks.length :=
                List.length_pos.mpr (peekID_eq_ne_nil (by decide) hp)
              omega)
           | (have h1 := r1.hle
              have h3 : 0 < toks.length :=
                List.length_pos.mpr (peekID_eq_ne_nil (by decide) hb)
              (try rw [hr] at h1)
              (try simp only [List.length_cons] at h1)
              have h4 := len_tail_le toks
              omega)
           | (have h3 : 0 < toks.length :=
                List.length_pos.mpr (peekID_eq_ne_nil (by decide) hb)
              omega))
      | (have h1 := r1.hle
         rcases Nat.lt_or_ge r1.rest.length toks.length with h | h
         · exact Prod.Lex.left _ _ h
         · have he : r1.rest.length = toks.length := Nat.le_antisymm h1 h
           rw [he]
           exact Prod.Lex.right _ (by omega))

/-- compiler.parseSegmentExpr: either a parenthesized segment (whose
expressions splice into the enclosing union) or a selector followed by
bracketed filters. -/
def parseSegmentExpr (toks : List Token) : Except PathErr (PRes (List SegmentExpr) toks.length) :=
  if hp : peekID toks = .lparen then
    match parseSegment toks.tail with
    | .error e => .error e
    | .ok r1 =>
      match hr : r1.rest with
      | [] => .error .pathSyntax
      | t :: rest2 =>
        if t.id = .rparen then
          .ok ⟨r1.val, rest2, by
            have h1 := r1.hle
            have h3 := len_tail_le toks
            rw [hr] at h1
            simp only [List.length_cons] at h1
            omega⟩
        else .error .pathSyntax
  else
    match parseSelector toks with
    | .error e => .error e
    | .ok r1 =>
      match parseFilters r1.rest with
      | .error e => .error e
      | .ok r2 => .ok ⟨[⟨r1.val, r2.val⟩], r2.rest, le_trans r2.hle r1.hle⟩
termination_by (toks.length, 3)
decreasing_by
  all_goals simp_wf
  all_goals
    first
      | exact Prod.Lex.right _ (by omega)
      | (apply Prod.Lex.left
         first
           | (have h1 := r1.hle
              have h3 : 0 < r1.rest.length :=
                List.length_pos.mpr (peekID_eq_ne_nil (by decide) hu)
              omega)
           | (have h3 : 0 < toks.length :=
                List.length_pos.mpr (peekID_eq_ne_nil (by decide) hp)
              omega)
           | (have h1 := r1.hle
              have h3 : 0 < toks.length :=
                List.length_pos.mpr (peekID_eq_ne_nil (by decide) hb)
              (try rw [hr] at h1)
              (try simp only [List.length_cons] at h1)
              have h4 := len_tail_le toks
              omega)
           | (have h3 : 0 < toks.length :=
                List.length_pos.mpr (peekID_eq_ne_nil (by decide) hb)
              omega))
      | (have h1 := r1.hle
         rcases Nat.lt_or_ge r1.rest.length toks.length with h | h
         · exact Prod.Lex.left _ _ h
         · have he : r1.rest.length = toks.length := Nat.le_antisymm h1 h
           rw [he]
           exact Prod.Lex.right _ (by omega))

/-- The filter-wrapper loop of parseSegmentExpr: zero or more bracketed
filters; a filter error is reported as ErrPathSyntax, and each filter must be
closed by a right bracket. -/
def parseFilters (toks : List Token) : Except PathErr (PRes (List Filter) toks.length) :=
  if hb : peekID toks = .lbracket then
    match parseFilter toks.tail with
    | .error _ => .error .pathSyntax
    | .ok r1 =>
      match hr : r1.rest with
      | [] => .error .pathSyntax
      | t :: rest2 =>
        if t.id = .rbracket then
          match parseFilters rest2 with
          | .error e => .error e
          | .ok r2 =>
            .ok ⟨⟨r1.val⟩ :: r2.val, r2.rest, by
              have h1 := r1.hle
              have h2 := r2.hle
              have h3 := len_tail_le toks
              rw [hr] at h1
              simp only [List.length_cons] at h1
              omega⟩
        else .error .pathSyntax
  else .ok ⟨[], toks, Nat.le_refl _⟩
termination_by (toks.length, 2)
decreasing_by
  all_goals simp_wf
  all_goals
    first
      | exact Prod.Lex.right _ (by omega)
      | (apply Prod.Lex.left
         first
           | (have h1 := r1.hle
              have h3 : 0 < r1.rest.length :=
                List.length_pos.mpr (peekID_eq_ne_nil (by decide) hu)
              omega)
           | (have h3 : 0 < toks.length :=
                List.length_pos.mpr (peekID_eq_ne_nil (by decide) hp)
              omega)
           | (have h1 := r1.hle
              have h3 : 0 < toks.length :=
                List.length_pos.mpr (peekID_eq_ne_nil (by decide) hb)
              (try rw [hr] at h1)
              (try simp only [List.length_cons] at h1)
              have h4 := len_tail_le toks
              omega)
           | (have h3 : 0 < toks.length :=
                List.length_pos.mpr (peekID_eq_ne_nil (by decide) hb)
              omega))
      | (have h1 := r1.hle
         rcases Nat.lt_or_ge r1.rest.length toks.length with h | h
         · exact Prod.Lex.left _ _ h
         · have he : r1.rest.length = toks.length := Nat.le_antisymm h1 h
           rw [he]
           exact Prod.Lex.right _ (by omega))

/-- compiler.parseFilter: one or more filter expressions joined by the union
token. -/
def parseFilter (toks : List Token) : Except PathErr (PRes (List FilterExpr) toks.length) :=
  match parseFilterExpr toks with
  | .error e => .error e
  | .ok r1 =>
    if hu : peekID r1.rest = .union then
      match parseFilter r1.rest.tail with
      | .error e => .error e
      | .ok r2 =>
        .ok ⟨r1.val ++ r2.val, r2.rest, by
          have h1 := r1.hle
          have h2 := r2.hle
          have h3 := len_tail_le r1.rest
          omega⟩
    else .ok ⟨r1.val, r1.rest, r1.hle⟩
termination_by (toks.length, 1)
decreasing_by
  all_goals simp_wf
  all_goals
    first
      | exact Prod.Lex.right _ (by omega)
      | (apply Prod.Lex.left
         first
           | (have h1 := r1.hle
              have h3 : 0 < r1.rest.length :=
                List.length_pos.mpr (peekID_eq_ne_nil (by decide) hu)
              omega)
           | (have h3 : 0 < toks.length :=
                List.length_pos.mpr (peekID_eq_ne_nil (by decide) hp)
              omega)
           | (have h1 := r1.hle
              have h3 : 0 < toks.length :=
                List.length_pos.mpr (peekID_eq_ne_nil (by decide) hb)
              (try rw [hr] at h1)
              (try simp only [List.length_cons] at h1)
              have h4 := len_tail_le toks
              omega)
           | (have h3 : 0 < toks.length :=
                List.length_pos.mpr (peekID_eq_ne_nil (by decide) hb)
              omega))
      | (have h1 := r1.hle
         rcases Nat.lt_or_ge r1.rest.length toks.length with h | h
         · exact Prod.Lex.left _ _ h
         · have he : r1.rest.length = toks.length := Nat.le_antisymm h1 h
           rw [he]
           exact Prod.Lex.right _ (by omega))

/-- compiler.parseFilterExpr: a numeric index, an attribute filter, a child
or function filter, or a parenthesized filter. -/
def parseFilterExpr (toks : List Token) : Except PathErr (PRes (List FilterExpr) toks.length) :=
  if hp : peekID toks = .lparen then
    match parseFilter toks.tail with
    | .error e => .error e
    | .ok r1 =>
      match hr : r1.rest with
      | [] => .error .pathSyntax
      | t :: rest2 =>
        if t.id = .rparen then
          .ok ⟨r1.val, rest2, by
            have h1 := r1.hle
            have h3 := len_tail_le toks
            rw [hr] at h1
            simp only [List.length_cons] at h1
            omega⟩
        else .error .pathSyntax
  else if peekID toks = .number then
    match toks with
    | [] => .error .pathSyntax
    | t :: rest =>
      .ok ⟨[.index (if 0 < goAtoi t.value then goAtoi t.value - 1 else goAtoi t.value)], rest,
        by simp⟩
  else if peekID toks = .atSign then
    match parseName toks.tail with
    | .error e => .error e
    | .ok r1 =>
      if peekID r1.rest = .equal then
        match hr : r1.rest with
        | [] => .error .pathSyntax
        | _ :: rest2 =>
          match hr2 : rest2 with
          | [] => .error .pathSyntax
          | t2 :: rest3 =>
            if t2.id = .string then
              .ok ⟨[.attribValue r1.val.1 r1.val.2 t2.value], rest3, by
                have h1 := r1.hle
                have h3 := len_tail_le toks
                rw [hr] at h1
                simp only [List.length_cons] at h1
                omega⟩
            else .error .pathSyntax
      else
        .ok ⟨[.attrib r1.val.1 r1.val.2], r1.rest, le_trans r1.hle (len_tail_le toks)⟩
  else if peekID toks = .identifier then
    match parseName toks with
    | .error e => .error e
    | .ok r1 =>
      if peekID r1.rest = .equal then
        match hr : r1.rest with
        | [] => .error .pathSyntax
        | _ :: rest2 =>
          match hr2 : rest2 with
          | [] => .error .pathSyntax
          | t2 :: rest3 =>
            if t2.id = .string then
              .ok ⟨[.childText r1.val.1 r1.val.2 t2.value], rest3, by
                have h1 := r1.hle
                rw [hr] at h1
                simp only [List.length_cons] at h1
                omega⟩
            else .error .pathSyntax
      else if peekID r1.rest = .lparen then
        match hr : r1.rest with
        | [] => .error .pathSyntax
        | _ :: rest2 =>
          match hr2 : rest2 with
          | [] => .error .pathSyntax
          | t2 :: rest3 =>
            if t2.id = .rparen then
              match fnTable r1.val.2 with
              | none => .error .pathSyntax
              | some fn =>
                if peekID rest3 = .equal then
                  match hr3 : rest3 with
                  | [] => .error .pathSyntax
                  | _ :: rest4 =>
                    match hr4 : rest4 with
                    | [] => .error .pathSyntax
                    | t3 :: rest5 =>
                      if t3.id = .string then
                        .ok ⟨[.valueFunc fn t3.value], rest5, by
                          have h1 := r1.hle
                          rw [hr] at h1
                          simp only [List.length_cons] at h1
                          omega⟩
                      else .error .pathSyntax
                else
                  .ok ⟨[.existsFunc fn], rest3, by
                    have h1 := r1.hle
                    rw [hr] at h1
                    simp only [List.length_cons] at h1
                    omega⟩
            else .error .pathSyntax
      else .ok ⟨[.child r1.val.1 r1.val.2], r1.rest, r1.hle⟩
  else .error .pathSyntax
termination_by (toks.length, 0)
decreasing_by
  all_goals simp_wf
  all_goals
    first
      | exact Prod.Lex.right _ (by omega)
      | (apply Prod.Lex.left
         first
           | (have h1 := r1.hle
              have h3 : 0 < r1.rest.length :=
                List.length_pos.mpr (peekID_eq_ne_nil (by decide) hu)
              omega)
           | (have h3 : 0 < toks.length :=
                List.length_pos.mpr (peekID_eq_ne_nil (by decide) hp)
              omega)
           | (have h1 := r1.hle
              have h3 : 0 < toks.length :=
                List.length_pos.mpr (peekID_eq_ne_nil (by decide) hb)
              (try rw [hr] at h1)
              (try simp only [List.length_cons] at h1)
              have h4 := len_tail_le toks
              omega)
           | (have h3 : 0 < toks.length :=
                List.length_pos.mpr (peekID_eq_ne_nil (by decide) hb)
              omega))
      | (have h1 := r1.hle
         rcases Nat.lt_or_ge r1.rest.length toks.length with h | h
         · exact Prod.Lex.left _ _ h
         · have he : r1.rest.length = toks.length := Nat.le_antisymm h1 h
           rw [he]
           exact Prod.Lex.right _ (by omega))

end

/-- The segment loop of compiler.parsePath, with the partially built segment
list made explicit: the result is the list of segments appended before
success or failure (on failure the caller discards it).  Mirrors the Go loop:
parse a segment, append it, then dispatch on the next token (sep continues,
sep_recurse additionally appends the descendants segment, end of input stops,
anything else is a syntax error). -/
def pathLoopM (toks : List Token) : List Segment × Option PathErr :=
  if toks = [] then ([], none)
  else
    match parseSegment toks with
    | .error e => ([], some e)
    | .ok r =>
      let seg : Segment := ⟨r.val⟩
      match hr : r.rest with
      | [] => ([seg], none)
      | t :: rest =>
        match t.id with
        | .sep =>
          let p := pathLoopM rest
          (seg :: p.1, p.2)
        | .sepRecurse =>
          let p := pathLoopM rest
          (seg :: descendantsSegment :: p.1, p.2)
        | .eol => ([seg], none)
        | _ => ([seg], some .pathSyntax)
termination_by toks.length
decreasing_by
  all_goals
    have h1 := r.hle
    rw [hr] at h1
    simp only [List.length_cons] at h1
    omega

/-- compiler.parsePath with the partially built segment list made explicit:
the absolute-path check prepends the root (and possibly descendants) segment,
an empty token stream is a syntax error, and the loop handles the rest. -/
def parsePathM (toks : List Token) : List Segment × Option PathErr :=
  if peekID toks = .sep then
    let p := pathLoopM toks.tail
    (rootSegment :: p.1, p.2)
  else if peekID toks = .sepRecurse then
    let p := pathLoopM toks.tail
    (rootSegment :: descendantsSegment :: p.1, p.2)
  else if peekID toks = .eol then ([], some .pathSyntax)
  else pathLoopM toks

/-- compiler.parsePath as a result value. -/
def parsePath (toks : List Token) : Except PathErr Path :=
  match parsePathM toks with
  | (_, some e) => .error e
  | (segs, none) => .ok ⟨segs⟩

/-- CompilePath, returning the pair the Go function returns: the Path value
and the error.  A tokenizer error returns the untouched zero Path; a parser
error discards the partially built path and returns the zero Path (`return
Path{}, err`).  `none` models a non-terminating tokenizer loop. -/
def CompilePathRes (path : Str) : Option (Path × Option PathErr) :=
  match tokenizePath path with
  | none => none
  | some (.error e) => some (⟨[]⟩, some e)
  | some (.ok toks) =>
    match parsePathM toks with
    | (_, some e) => some (⟨[]⟩, some e)
    | (segs, none) => some (⟨segs⟩, none)

/-- CompilePath with the Go (value, error) pair folded into an Except. -/
def CompilePath (path : Str) : Option (Except PathErr Path) :=
  match tokenizePath path with
  | none => none
  | some (.error e) => some (.error e)
  | some (.ok toks) => some (parsePath toks)

--------------------------------------------------------------------------
-- The element tree (the collaborator of section 6 of the specification)
--------------------------------------------------------------------------

/-- An attribute: namespace prefix, key and value. -/
structure Attr where
  space : Str
  key : Str
  value : Str
deriving DecidableEq

/-- A child token of an element: an element handle, character data, or any
other token kind (comment, directive, processing instruction), which the path
evaluator skips. -/
inductive XToken where
  | elem (idx : Nat)
  | charData (data : Str)
  | other
deriving DecidableEq

/-- The data of one element.  Elements live in an arena (Forest) and are
addressed by index; element identity is index equality, modelling Go pointer
identity. -/
structure ElemData where
  space : Str
  tag : Str
  attr : List Attr
  child : List XToken
  parent : Option Nat
deriving DecidableEq, Inhabited

/-- An arena of elements. -/
structure Forest where
  elems : List ElemData
deriving DecidableEq

/-- Look up an element by handle (out-of-range handles yield a default
empty element; the evaluator only follows handles stored in the forest). -/
def Forest.get (f : Forest) (i : Nat) : ElemData := f.elems.getD i default

/-- Modelled from the spec: the helper spaceMatch is declared in a repository
file that is absent from src (only its callers appear there).  Spec rule: a
query prefix that is the single character star matches any prefix; an empty
query prefix matches any prefix; otherwise the match is exact. -/
def spaceMatch (a b : Str) : Bool :=
  if a = [] then true
  else if a = ['*'] then true
  else a = b

/-- The element-typed children of an element, in document order. -/
def childElems (f : Forest) (i : Nat) : List Nat :=
  (f.get i).child.filterMap fun t =>
    match t with
    | .elem j => some j
    | _ => none

/-- Modelled from the spec: Element.Text (absent from src) returns the
concatenation of the element-leading character-data children. -/
def elemText (f : Forest) (i : Nat) : Str :=
  ((f.get i).child.takeWhile fun t =>
    match t with
    | .elem _ => false
    | _ => true).foldl
    (fun acc t =>
      match t with
      | .charData d => acc ++ d
      | _ => acc) []

/-- Modelled from the spec: Element.name (absent from src), the local name. -/
def elemName (f : Forest) (i : Nat) : Str := (f.get i).tag

/-- Modelled from the spec: Element.FullTag (absent from src), the prefixed
form, or the bare local name when the prefix is empty. -/
def elemFullTag (f : Forest) (i : Nat) : Str :=
  if (f.get i).space = [] then (f.get i).tag
  else (f.get i).space ++ ':' :: (f.get i).tag

/-- Modelled from the spec: Element.namespacePrefix (absent from src). -/
def elemNsPfx (f : Forest) (i : Nat) : Str := (f.get i).space

/-- Modelled from the spec: Element.NamespaceURI (absent from src) resolves
the element prefix against xmlns attributes, walking up the ancestor chain;
the fuel bounds the walk in an acyclic forest. -/
def elemNsUri (f : Forest) : Nat → Nat → Str
  | 0, _ => []
  | fuel + 1, i =>
    let ed := f.get i
    let sp : Str := if ed.space = [] then [] else ['x', 'm', 'l', 'n', 's']
    let key : Str := if ed.space = [] then ['x', 'm', 'l', 'n', 's'] else ed.space
    match ed.attr.find? (fun a => decide (a.space = sp ∧ a.key = key)) with
    | some a => a.value
    | none =>
      match ed.parent with
      | some j => elemNsUri f fuel j
      | none => []

/-- The accessor the fnTable entries denote. -/
def fnEval (f : Forest) (fn : FnKind) (i : Nat) : Str :=
  match fn with
  | .localName => elemName f i
  | .fullName => elemFullTag f i
  | .nsPfx => elemNsPfx f i
  | .nsUri => elemNsUri f (f.elems.length + 1) i
  | .textFn => elemText f i

--------------------------------------------------------------------------
-- Candidate sets
--------------------------------------------------------------------------

/-- largeListSize: the small-list threshold. -/
def largeListSize : Nat := 16

/-- A candidates value: the ordered list plus the optional identity table.
The Go `map[*Element]bool` is modelled by its key set as a list; only
membership in it is ever observed. -/
structure Candidates where
  list : List Nat
  table : Option (List Nat)
deriving DecidableEq

/-- newCandidates: empty list, no table. -/
def newCandidates : Candidates := ⟨[], none⟩

/-- Insertion into the modelled identity table (`t[e] = true`). -/
def tableAdd (t : List Nat) (e : Nat) : List Nat := if e ∈ t then t else e :: t

/-- Building the table from an existing list. -/
def buildTable (l : List Nat) : List Nat := l.foldl tableAdd []

/-- candidates.add: append unconditionally; once the list reaches the
threshold, build the table from it and keep the table up to date. -/
def Candidates.add (c : Candidates) (e : Nat) : Candidates :=
  let list := c.list ++ [e]
  let table :=
    match c.table with
    | none => if largeListSize ≤ list.length then some (buildTable list) else none
    | some t => some t
  match table with
  | none => ⟨list, none⟩
  | some t => ⟨list, some (tableAdd t e)⟩

/-- The small-mode merge loop: append each element of the other list that a
linear scan of the (growing) receiver list does not find. -/
def mergeScan (cl ol : List Nat) : List Nat :=
  ol.foldl (fun acc e => if e ∈ acc then acc else acc ++ [e]) cl

/-- The large-mode merge loop: append each element of the other list that the
table does not contain, maintaining the table. -/
def mergeTable (cl t ol : List Nat) : List Nat × List Nat :=
  ol.foldl
    (fun acc e => if e ∈ acc.2 then acc else (acc.1 ++ [e], tableAdd acc.2 e))
    (cl, t)

/-- candidates.merge.  The Go guard `other.list == nil` is modelled by the
emptiness test: every reachable non-nil candidate list is nonempty (add
allocates and immediately appends), so nil-ness and emptiness coincide for
every argument merge receives during evaluation. -/
def Candidates.merge (c : Candidates) (other : Candidates) : Candidates :=
  if other.list = [] then c
  else
    let table :=
      match c.table with
      | none =>
        if largeListSize ≤ c.list.length + other.list.length then some (buildTable c.list)
        else none
      | some t => some t
    match table with
    | none => ⟨mergeScan c.list other.list, none⟩
    | some t =>
      let p := mergeTable c.list t other.list
      ⟨p.1, some p.2⟩

--------------------------------------------------------------------------
-- Selector and filter evaluation
--------------------------------------------------------------------------

/-- selectRoot's parent walk; the fuel (the number of elements) bounds the
ancestor chain of an acyclic forest. -/
def selectRootFuel (f : Forest) : Nat → Nat → Nat
  | 0, i => i
  | fuel + 1, i =>
    match (f.get i).parent with
    | none => i
    | some j => selectRootFuel f fuel j

/-- selectDescendants' breadth-first walk (via the fifo queue, modelled from
the spec as a first-in-first-out list: the fifo helper is absent from src):
pop an element, add it to the candidates, enqueue its element children.  The
fuel (the number of elements plus one) bounds the pops in a well-formed
forest, where each element is the child of at most one parent. -/
def descendantsBFS (f : Forest) : Nat → List Nat → Candidates → Candidates
  | _, [], out => out
  | 0, _ :: _, out => out
  | fuel + 1, i :: queue, out => descendantsBFS f fuel (queue ++ childElems f i) (out.add i)

/-- Evaluation of each selector variant against an element. -/
def Selector.eval (f : Forest) (e : Nat) : Selector → Candidates
  | .root => newCandidates.add (selectRootFuel f f.elems.length e)
  | .self => newCandidates.add e
  | .parent =>
    match (f.get e).parent with
    | some j => newCandidates.add j
    | none => newCandidates
  | .children => (childElems f e).foldl Candidates.add newCandidates
  | .childrenByTag sp tg =>
    (childElems f e).foldl
      (fun out ch =>
        if spaceMatch sp (f.get ch).space ∧ tg = (f.get ch).tag then out.add ch else out)
      newCandidates
  | .descendants => descendantsBFS f (f.elems.length + 1) [e] newCandidates

/-- Evaluation of each filter-expression variant: narrow the incoming
candidate list.  filterChild and filterChildText add the candidate once per
matching child (the source loops have no break there); filterAttrib and
filterAttribValue stop at the first matching attribute. -/
def FilterExpr.eval (f : Forest) (e : Nat) (inC : Candidates) : FilterExpr → Candidates
  | .index idx =>
    if 0 ≤ idx then
      if idx < (inC.list.length : Int) then newCandidates.add (inC.list.getD idx.toNat 0)
      else newCandidates
    else
      if -idx ≤ (inC.list.length : Int) then
        newCandidates.add (inC.list.getD ((inC.list.length : Int) + idx).toNat 0)
      else newCandidates
  | .attrib sp key =>
    inC.list.foldl
      (fun out ch =>
        if (f.get ch).attr.any (fun a => spaceMatch sp a.space && decide (key = a.key)) then
          out.add ch
        else out)
      newCandidates
  | .attribValue sp key v =>
    inC.list.foldl
      (fun out ch =>
        if (f.get ch).attr.any
            (fun a => spaceMatch sp a.space && decide (key = a.key) && decide (v = a.value)) then
          out.add ch
        else out)
      newCandidates
  | .child sp tg =>
    inC.list.foldl
      (fun out ch =>
        (f.get ch).child.foldl
          (fun out cc =>
            match cc with
            | .elem j =>
              if spaceMatch sp (f.get j).space ∧ tg = (f.get j).tag then out.add ch else out
            | _ => out)
          out)
      newCandidates
  | .childText sp tg v =>
    inC.list.foldl
      (fun out ch =>
        (f.get ch).child.foldl
          (fun out cc =>
            match cc with
            | .elem j =>
              if spaceMatch sp (f.get j).space ∧ tg = (f.get j).tag ∧ v = elemText f j then
                out.add ch
              else out
            | _ => out)
          out)
      newCandidates
  | .existsFunc fn =>
    inC.list.foldl
      (fun out ch => if fnEval f fn ch ≠ [] then out.add ch else out) newCandidates
  | .valueFunc fn v =>
    inC.list.foldl
      (fun out ch => if fnEval f fn ch = v then out.add ch else out) newCandidates

/-- pather.evalFilter: union of the filter expressions applied to the
incoming candidates. -/
def evalFilter (f : Forest) (e : Nat) (flt : Filter) (inC : Candidates) : Candidates :=
  flt.exprs.foldl (fun out fe => out.merge (FilterExpr.eval f e inC fe)) newCandidates

/-- The filter loop of pather.evalSegmentExpr: apply each filter in sequence,
stopping early once the candidate list becomes empty. -/
def applyFilters (f : Forest) (e : Nat) : List Filter → Candidates → Candidates
  | [], out => out
  | flt :: rest, out =>
    let out2 := evalFilter f e flt out
    if out2.list = [] then out2 else applyFilters f e rest out2

/-- pather.evalSegmentExpr: selector then filters (filters run only on a
nonempty selector result). -/
def evalSegmentExpr (f : Forest) (e : Nat) (ex : SegmentExpr) : Candidates :=
  let out := Selector.eval f e ex.sel
  if out.list = [] then out else applyFilters f e ex.filters out

/-- pather.evalSegment: union of the segment expressions. -/
def evalSegment (f : Forest) (e : Nat) (s : Segment) : Candidates :=
  s.exprs.foldl (fun out ex => out.merge (evalSegmentExpr f e ex)) newCandidates

--------------------------------------------------------------------------
-- Traversal
--------------------------------------------------------------------------

/-- One BFS level of pather.traverse: the concatenated candidate lists of a
level's nodes, in order, which become the next level's queue entries. -/
def expandLevel (f : Forest) (seg : Segment) (nodes : List Nat) : List Nat :=
  nodes.foldl (fun acc e => acc ++ (evalSegment f e seg).list) []

/-- pather.traverse, level-structured.  All entries of the source's fifo
queue at a given depth carry the same remaining-segment list, so first-in
first-out processing handles one level after the other, in order: non-final
levels enqueue their candidates, the final level merges its candidates into
the accumulated output.  traverseQ below is the literal queue-and-fuel
formulation, and the C7 theorem proves the two agree. -/
def traverseLevels (f : Forest) : List Segment → List Nat → Candidates → Candidates
  | [], _, out => out
  | seg :: rest, nodes, out =>
    if rest = [] then nodes.foldl (fun o e => o.merge (evalSegment f e seg)) out
    else traverseLevels f rest (expandLevel f seg nodes) out

/-- pather.traverse: evaluate the path from an element, returning the
deduplicated output list. -/
def traverse (f : Forest) (e : Nat) (p : Path) : List Nat :=
  (traverseLevels f p.segments [e] newCandidates).list

/-- pather.traverse as the literal queue loop (the fifo helper is absent from
src and is modelled from the spec as a first-in-first-out list), with fuel
counting queue pops; `none` models exhaustion, and popping a node with no
remaining segments models the out-of-range panic of `n.segments[0]` (the
specification states such nodes must not occur). -/
def traverseQ (f : Forest) : Nat → List (Nat × List Segment) → Candidates → Option (List Nat)
  | _, [], out => some out.list
  | 0, _ :: _, _ => none
  | fuel + 1, (e, segs) :: queue, out =>
    match segs with
    | [] => none
    | seg :: remain =>
      let cands := evalSegment f e seg
      if remain = [] then traverseQ f fuel queue (out.merge cands)
      else traverseQ f fuel (queue ++ cands.list.map (fun c => (c, remain))) out

--------------------------------------------------------------------------
-- Candidate-set lemmas
--------------------------------------------------------------------------

/-- Well-formedness of a candidates value: when the table exists, it holds
exactly the elements of the list.  add, merge and newCandidates maintain
this, so it holds of every reachable candidates value. -/
def Candidates.wf (c : Candidates) : Prop :=
  ∀ t, c.table = some t → ∀ a, a ∈ t ↔ a ∈ c.list

theorem newCandidates_wf : newCandidates.wf := by
  intro t ht
  cases ht

theorem mem_tableAdd {t : List Nat} {e a : Nat} : a ∈ tableAdd t e ↔ a = e ∨ a ∈ t := by
  unfold tableAdd
  split
  · constructor
    · exact Or.inr
    · rintro (rfl | h2)
      · assumption
      · assumption
  · simp

theorem mem_buildTable_aux (l : List Nat) (acc : List Nat) (a : Nat) :
    a ∈ l.foldl tableAdd acc ↔ a ∈ acc ∨ a ∈ l := by
  induction l generalizing acc with
  | nil => simp
  | cons e l ih =>
    simp only [List.foldl_cons, ih, mem_tableAdd, List.mem_cons]
    tauto

theorem mem_buildTable {l : List Nat} {a : Nat} : a ∈ buildTable l ↔ a ∈ l := by
  unfold buildTable
  rw [mem_buildTable_aux]
  simp

theorem mergeScan_cons (cl : List Nat) (e : Nat) (ol : List Nat) :
    mergeScan cl (e :: ol) = mergeScan (if e ∈ cl then cl else cl ++ [e]) ol := rfl

theorem mergeTable_cons (cl t : List Nat) (e : Nat) (ol : List Nat) :
    mergeTable cl t (e :: ol) =
      if e ∈ t then mergeTable cl t ol else mergeTable (cl ++ [e]) (tableAdd t e) ol := by
  unfold mergeTable
  rw [List.foldl_cons]
  by_cases he : e ∈ t
  · simp [he]
  · simp [he]

theorem mem_mergeScan {cl ol : List Nat} {a : Nat} :
    a ∈ mergeScan cl ol ↔ a ∈ cl ∨ a ∈ ol := by
  induction ol generalizing cl with
  | nil => simp [mergeScan]
  | cons e ol ih =>
    rw [mergeScan_cons, ih, List.mem_cons]
    by_cases he : e ∈ cl
    · rw [if_pos he]
      constructor
      · rintro (h | h)
        · exact Or.inl h
        · exact Or.inr (Or.inr h)
      · rintro (h | rfl | h)
        · exact Or.inl h
        · exact Or.inl he
        · exact Or.inr h
    · rw [if_neg he]
      simp only [List.mem_append, List.mem_singleton]
      tauto

theorem mergeScan_nodup {cl : List Nat} (ol : List Nat) (h : cl.Nodup) :
    (mergeScan cl ol).Nodup := by
  induction ol generalizing cl with
  | nil => exact h
  | cons e ol ih =>
    rw [mergeScan_cons]
    by_cases he : e ∈ cl
    · rw [if_pos he]
      exact ih h
    · rw [if_neg he]
      refine ih ?_
      simp [List.nodup_append, h, he]

theorem mergeTable_spec (ol : List Nat) :
    ∀ (cl t : List Nat), (∀ a, a ∈ t ↔ a ∈ cl) →
      (mergeTable cl t ol).1 = mergeScan cl ol ∧
        ∀ a, a ∈ (mergeTable cl t ol).2 ↔ a ∈ (mergeTable cl t ol).1 := by
  induction ol with
  | nil => exact fun cl t hsync => ⟨rfl, hsync⟩
  | cons e ol ih =>
    intro cl t hsync
    rw [mergeTable_cons, mergeScan_cons]
    by_cases he : e ∈ t
    · have hecl : e ∈ cl := (hsync e).mp he
      rw [if_pos he, if_pos hecl]
      exact ih cl t hsync
    · have hecl : e ∉ cl := fun hc => he ((hsync e).mpr hc)
      rw [if_neg he, if_neg hecl]
      refine ih (cl ++ [e]) (tableAdd t e) ?_
      intro a
      rw [mem_tableAdd, hsync a]
      simp [Or.comm]

/-- Core merge refinement: whatever mechanism merge selects (pre-existing
table, table freshly built at the threshold, or the small-mode linear scan),
the resulting list is the linear-scan result. -/
theorem merge_list_eq_scan {c o : Candidates} (h : c.wf) :
    (c.merge o).list = mergeScan c.list o.list := by
  unfold Candidates.merge
  by_cases ho : o.list = []
  · simp [ho, mergeScan]
  · rw [if_neg ho]
    cases hct : c.table with
    | none =>
      simp only
      by_cases hth : largeListSize ≤ c.list.length + o.list.length
      · rw [if_pos hth]
        exact (mergeTable_spec o.list c.list (buildTable c.list)
          (fun a => mem_buildTable)).1
      · rw [if_neg hth]
    | some t =>
      simp only
      exact (mergeTable_spec o.list c.list t (h t hct)).1

theorem merge_wf {c o : Candidates} (h : c.wf) : (c.merge o).wf := by
  unfold Candidates.merge
  by_cases ho : o.list = []
  · simpa [ho] using h
  · rw [if_neg ho]
    cases hct : c.table with
    | none =>
      simp only
      by_cases hth : largeListSize ≤ c.list.length + o.list.length
      · rw [if_pos hth]
        intro t2 ht2 a
        cases ht2
        exact (mergeTable_spec o.list c.list (buildTable c.list)
          (fun a => mem_buildTable)).2 a
      · rw [if_neg hth]
        intro t2 ht2
        cases ht2
    | some t =>
      simp only
      intro t2 ht2 a
      cases ht2
      exact (mergeTable_spec o.list c.list t (h t hct)).2 a

theorem merge_nodup {c o : Candidates} (h : c.wf) (hn : c.list.Nodup) :
    (c.merge o).list.Nodup := by
  rw [merge_list_eq_scan h]
  exact mergeScan_nodup o.list hn

theorem mem_merge {c o : Candidates} (h : c.wf) {a : Nat} :
    a ∈ (c.merge o).list ↔ a ∈ c.list ∨ a ∈ o.list := by
  rw [merge_list_eq_scan h]
  exact mem_mergeScan

theorem add_list (c : Candidates) (e : Nat) : (c.add e).list = c.list ++ [e] := by
  unfold Candidates.add
  cases c.table <;> simp only <;> split <;> rfl

theorem foldl_merge_wf_nodup {α : Type} (g : α → Candidates) (l : List α) :
    ∀ out : Candidates, out.wf → out.list.Nodup →
      (l.foldl (fun o e => o.merge (g e)) out).wf ∧
        (l.foldl (fun o e => o.merge (g e)) out).list.Nodup := by
  induction l with
  | nil => exact fun out hw hn => ⟨hw, hn⟩
  | cons e l ih =>
    intro out hw hn
    exact ih (out.merge (g e)) (merge_wf hw) (merge_nodup hw hn)

theorem traverseLevels_wf_nodup (f : Forest) :
    ∀ (segs : List Segment) (ns : List Nat) (out : Candidates), out.wf → out.list.Nodup →
      (traverseLevels f segs ns out).wf ∧ (traverseLevels f segs ns out).list.Nodup := by
  intro segs
  induction segs with
  | nil => exact fun ns out hw hn => ⟨hw, hn⟩
  | cons seg rest ih =>
    intro ns out hw hn
    by_cases hr : rest = []
    · simp only [traverseLevels, if_pos hr]
      exact foldl_merge_wf_nodup (fun e => evalSegment f e seg) ns out hw hn
    · simp only [traverseLevels, if_neg hr]
      exact ih (expandLevel f seg ns) out hw hn

theorem traverse_nodup (f : Forest) (e : Nat) (p : Path) : (traverse f e p).Nodup :=
  (traverseLevels_wf_nodup f p.segments [e] newCandidates newCandidates_wf List.nodup_nil).2

--------------------------------------------------------------------------
-- Sample data for witnesses
--------------------------------------------------------------------------

/-- A small sample forest: element 0 is a root tagged r with two child
elements tagged a (handles 1 and 2); element 1 carries an attribute k="v";
element 2 has leading character data. -/
def sampleForest : Forest :=
  ⟨[⟨[], ['r'], [], [.elem 1, .elem 2], none⟩,
    ⟨[], ['a'], [⟨[], ['k'], ['v']⟩], [], some 0⟩,
    ⟨[], ['a'], [], [.charData ['h', 'i']], some 0⟩]⟩

/-- The compiled form of the path a: one segment selecting children tagged
a, with no filters. -/
def samplePath : Path := ⟨[⟨[⟨.childrenByTag [] ['a'], []⟩]⟩]⟩

--------------------------------------------------------------------------
-- Claim C1
--------------------------------------------------------------------------

/-- Claim C1, counterexample: candidates.add appends unconditionally, so
adding an element to a candidate set that already contains it duplicates it
in the list; the claim that the list is left unchanged is false. -/
theorem c1_counterexample : ((newCandidates.add 0).add 0).list = [0, 0] := by decide

/-- Claim C1 as amended: add appends unconditionally (no absence check);
merge is the operation that appends only absent elements (in the other set's
order), and the final traverse result, which is built exclusively by merging
into an initially empty well-formed set, contains each element at most
once. -/
theorem c1_amended :
    (∀ (c : Candidates) (e : Nat), (c.add e).list = c.list ++ [e]) ∧
    (∀ (c o : Candidates), c.wf → c.list.Nodup →
      (c.merge o).list.Nodup ∧ ∀ a : Nat, a ∈ (c.merge o).list ↔ a ∈ c.list ∨ a ∈ o.list) ∧
    (∀ (f : Forest) (e : Nat) (p : Path), (traverse f e p).Nodup) := by
  refine ⟨add_list, fun c o hw hn => ⟨merge_nodup hw hn, fun a => mem_merge hw⟩, traverse_nodup⟩

/-- Claim C1 witness: the amended claim applied at concrete inputs. -/
theorem c1_witness :
    ((newCandidates.add 3).list = newCandidates.list ++ [3]) ∧
    (Candidates.merge ⟨[7], none⟩ ⟨[7, 8], none⟩).list.Nodup ∧
    (traverse sampleForest 0 samplePath).Nodup ∧
    traverse sampleForest 0 samplePath = [1, 2] :=
  ⟨c1_amended.1 newCandidates 3,
   (c1_amended.2.1 ⟨[7], none⟩ ⟨[7, 8], none⟩ (fun t ht => nomatch ht) (by decide)).1,
   c1_amended.2.2 sampleForest 0 samplePath,
   by decide⟩

--------------------------------------------------------------------------
-- Claim C2
--------------------------------------------------------------------------

/-- Claim C2, counterexample: CompilePath on the path consisting solely of a
slash does not fail; it compiles to the single root segment (the source
grammar `path ::= sep? (segment sep)* segment?` admits a bare separator). -/
theorem c2_counterexample : CompilePath ['/'] = some (.ok ⟨[rootSegment]⟩) := by
  have h1 : tokenizePath ['/'] = some (.ok [⟨.sep, []⟩]) := by decide
  simp [CompilePath, h1, parsePath, parsePathM, peekID, pathLoopM]

/-- Claim C2 as amended: a path consisting solely of a slash compiles to the
root segment, a path consisting solely of a double slash compiles to the root
segment followed by the descendants segment, and only the empty token stream
is rejected with ErrPathSyntax. -/
theorem c2_amended :
    CompilePath ['/'] = some (.ok ⟨[rootSegment]⟩) ∧
    CompilePath ['/', '/'] = some (.ok ⟨[rootSegment, descendantsSegment]⟩) ∧
    CompilePath [] = some (.error .pathSyntax) := by
  refine ⟨?_, ?_, ?_⟩
  · have h1 : tokenizePath ['/'] = some (.ok [⟨.sep, []⟩]) := by decide
    simp [CompilePath, h1, parsePath, parsePathM, peekID, pathLoopM]
  · have h1 : tokenizePath ['/', '/'] = some (.ok [⟨.sepRecurse, []⟩]) := by decide
    simp [CompilePath, h1, parsePath, parsePathM, peekID, pathLoopM]
  · have h1 : tokenizePath [] = some (.ok []) := by decide
    simp [CompilePath, h1, parsePath, parsePathM, peekID]

--------------------------------------------------------------------------
-- Claim C3
--------------------------------------------------------------------------

/-- Claim C3, evaluation at the failing input: the filter `[@*]` violates the
grammar (`filterAttrib ::= '@' name`, `name ::= ident | ident ':' ident`),
yet the parser accepts it, because parseName never checks that its first
token is an identifier: the star token's empty lexeme becomes the attribute
name and the path compiles to a filterAttrib with empty space and key. -/
theorem c3_eval :
    CompilePath ['a', '[', '@', '*', ']'] =
      some (.ok ⟨[⟨[⟨.childrenByTag [] ['a'], [⟨[.attrib [] []]⟩]⟩]⟩]⟩) := by
  have h1 : tokenizePath ['a', '[', '@', '*', ']'] =
      some (.ok [⟨.identifier, ['a']⟩, ⟨.lbracket, []⟩, ⟨.atSign, []⟩, ⟨.children, []⟩,
        ⟨.rbracket, []⟩]) := by decide
  simp [CompilePath, h1, parsePath, parsePathM, peekID, pathLoopM, parseSegment,
    parseSegmentExpr, parseSelector, parseName, parseFilters, parseFilter, parseFilterExpr]

--------------------------------------------------------------------------
-- Claim C6
--------------------------------------------------------------------------

/-- Claim C6: for every well-formed receiver (the table, when present, holds
exactly the list's elements, as add and merge maintain) and every other set,
merge's resulting list equals the pure small-mode linear scan mergeScan,
whichever mechanism the length threshold selects; the threshold never changes
the output list. -/
theorem c6_merge_mechanism (c o : Candidates) (h : c.wf) :
    (c.merge o).list = mergeScan c.list o.list :=
  merge_list_eq_scan h

/-- Claim C6 witness: merging two ten-element lists crosses the threshold of
16, so the table mechanism runs, and the output equals the linear scan. -/
theorem c6_witness :
    (Candidates.merge ⟨[0, 1, 2, 3, 4, 5, 6, 7, 8, 9], none⟩
        ⟨[5, 6, 7, 8, 9, 10, 11, 12, 13, 14], none⟩).list =
      mergeScan [0, 1, 2, 3, 4, 5, 6, 7, 8, 9] [5, 6, 7, 8, 9, 10, 11, 12, 13, 14] ∧
    mergeScan [0, 1, 2, 3, 4, 5, 6, 7, 8, 9] [5, 6, 7, 8, 9, 10, 11, 12, 13, 14] =
      [0, 1, 2, 3, 4, 5, 6, 7, 8, 9, 10, 11, 12, 13, 14] :=
  ⟨c6_merge_mechanism ⟨[0, 1, 2, 3, 4, 5, 6, 7, 8, 9], none⟩
      ⟨[5, 6, 7, 8, 9, 10, 11, 12, 13, 14], none⟩ (fun t ht => nomatch ht),
   by decide⟩

--------------------------------------------------------------------------
-- Claim C8
--------------------------------------------------------------------------

/-- Claim C8: namespace-prefix matching (used by selectChildrenByTag and
filterAttrib through spaceMatch) is lenient: a star query prefix matches any
element prefix, an empty query prefix matches any element prefix, and any
other query prefix matches exactly. -/
theorem c8_space_match :
    (∀ p : Str, spaceMatch ['*'] p = true) ∧
    (∀ p : Str, spaceMatch [] p = true) ∧
    (∀ q p : Str, q ≠ [] → q ≠ ['*'] → (spaceMatch q p = true ↔ q = p)) := by
  refine ⟨fun p => by simp [spaceMatch], fun p => by simp [spaceMatch], ?_⟩
  intro q p h1 h2
  simp [spaceMatch, h1, h2]

/-- Claim C8 witness: the exact-match branch applied at concrete prefixes. -/
theorem c8_witness :
    (spaceMatch ['*'] ['q'] = true) ∧ (spaceMatch [] ['q'] = true) ∧
    (spaceMatch ['p'] ['q'] = true ↔ (['p'] : Str) = ['q']) :=
  ⟨c8_space_match.1 ['q'], c8_space_match.2.1 ['q'],
   c8_space_match.2.2 ['p'] ['q'] (by decide) (by decide)⟩

--------------------------------------------------------------------------
-- Claim C10
--------------------------------------------------------------------------

/-- Claim C10: CompilePath is atomic on failure.  Whenever the Go pair
return carries a non-nil error, the returned Path is the zero value with no
segments: the tokenizer error path returns the untouched zero path, and the
parser error path explicitly discards the partially built path. -/
theorem c10_atomic (s : Str) (p : Path) (e : PathErr)
    (h : CompilePathRes s = some (p, some e)) : p = ⟨[]⟩ := by
  unfold CompilePathRes at h
  split at h
  · cases h
  · simp only [Option.some.injEq, Prod.mk.injEq] at h
    exact h.1.symm
  · split at h
    · simp only [Option.some.injEq, Prod.mk.injEq] at h
      exact h.1.symm
    · simp at h

/-- Claim C10 witness: a lone right bracket fails to parse, and the theorem
yields the zero path on that concrete failure. -/
theorem c10_witness :
    CompilePathRes [']'] = some (⟨[]⟩, some .pathSyntax) ∧ (⟨[]⟩ : Path) = ⟨[]⟩ := by
  have h1 : tokenizePath [']'] = some (.ok [⟨.rbracket, []⟩]) := by decide
  have h : CompilePathRes [']'] = some (⟨[]⟩, some .pathSyntax) := by
    simp [CompilePathRes, h1, parsePathM, peekID, pathLoopM, parseSegment, parseSegmentExpr,
      parseSelector, parseFilters]
  exact ⟨h, c10_atomic [']'] ⟨[]⟩ .pathSyntax h⟩

--------------------------------------------------------------------------
-- Claim C4
--------------------------------------------------------------------------

/-- Claim C4: index filters are 1-based with from-end negatives.  A parsed
literal with positive value n is stored as n - 1 (so the literal 0, stored
unchanged as 0, behaves exactly as the literal 1); at evaluation time a
stored nonnegative index i selects the (i+1)-th candidate when in range, a
stored negative index i with -i at most the length selects list[len + i],
and any out-of-range stored index yields the empty candidate list. -/
theorem c4_index :
    (∀ (v : Str) (rest : List Token), 0 < goAtoi v →
      (parseFilterExpr (⟨.number, v⟩ :: rest)).map PRes.out =
        .ok ([.index (goAtoi v - 1)], rest)) ∧
    (∀ (v : Str) (rest : List Token), goAtoi v ≤ 0 →
      (parseFilterExpr (⟨.number, v⟩ :: rest)).map PRes.out =
        .ok ([.index (goAtoi v)], rest)) ∧
    (∀ (f : Forest) (e : Nat) (inC : Candidates) (idx : Int),
      (0 ≤ idx → idx < (inC.list.length : Int) →
        (FilterExpr.eval f e inC (.index idx)).list = [inC.list.getD idx.toNat 0]) ∧
      (0 ≤ idx → (inC.list.length : Int) ≤ idx →
        (FilterExpr.eval f e inC (.index idx)).list = []) ∧
      (idx < 0 → -idx ≤ (inC.list.length : Int) →
        (FilterExpr.eval f e inC (.index idx)).list =
          [inC.list.getD ((inC.list.length : Int) + idx).toNat 0]) ∧
      (idx < 0 → (inC.list.length : Int) < -idx →
        (FilterExpr.eval f e inC (.index idx)).list = [])) := by
  refine ⟨?_, ?_, ?_⟩
  · intro v rest h
    simp [parseFilterExpr, peekID, PRes.out, Except.map, if_pos h]
  · intro v rest h
    simp [parseFilterExpr, peekID, PRes.out, Except.map, if_neg (not_lt.mpr h)]
  · intro f e inC idx
    refine ⟨?_, ?_, ?_, ?_⟩
    · intro h1 h2
      simp [FilterExpr.eval, if_pos h1, if_pos h2, Candidates.add, newCandidates, largeListSize]
    · intro h1 h2
      simp [FilterExpr.eval, if_pos h1, if_neg (not_lt.mpr h2), newCandidates]
    · intro h1 h2
      simp [FilterExpr.eval, if_neg (not_le.mpr h1), if_pos h2, Candidates.add, newCandidates,
        largeListSize]
    · intro h1 h2
      simp [FilterExpr.eval, if_neg (not_le.mpr h1), if_neg (not_le.mpr h2), newCandidates]

/-- Claim C4 witness: the literals 3, 0 and 1, and concrete in-range and
out-of-range stored indexes over a three-candidate list. -/
theorem c4_witness :
    ((parseFilterExpr [⟨.number, ['3']⟩]).map PRes.out = .ok ([.index (goAtoi ['3'] - 1)], [])) ∧
    ((parseFilterExpr [⟨.number, ['0']⟩]).map PRes.out = .ok ([.index (goAtoi ['0'])], [])) ∧
    goAtoi ['3'] - 1 = 2 ∧ goAtoi ['0'] = 0 ∧ goAtoi ['1'] - 1 = 0 ∧
    ((FilterExpr.eval sampleForest 0 ⟨[10, 20, 30], none⟩ (.index 2)).list =
      [([10, 20, 30] : List Nat).getD ((2 : Int)).toNat 0]) ∧
    ([10, 20, 30] : List Nat).getD ((2 : Int)).toNat 0 = 30 ∧
    ((FilterExpr.eval sampleForest 0 ⟨[10, 20, 30], none⟩ (.index 3)).list = []) ∧
    ((FilterExpr.eval sampleForest 0 ⟨[10, 20, 30], none⟩ (.index (-1))).list =
      [([10, 20, 30] : List Nat).getD ((((3 : Int)) + (-1)).toNat) 0]) ∧
    ([10, 20, 30] : List Nat).getD ((((3 : Int)) + (-1)).toNat) 0 = 30 ∧
    ((FilterExpr.eval sampleForest 0 ⟨[10, 20, 30], none⟩ (.index (-4))).list = []) :=
  ⟨c4_index.1 ['3'] [] (by decide),
   c4_index.2.1 ['0'] [] (by decide),
   by decide, by decide, by decide,
   (c4_index.2.2 sampleForest 0 ⟨[10, 20, 30], none⟩ 2).1 (by decide) (by decide),
   by decide,
   (c4_index.2.2 sampleForest 0 ⟨[10, 20, 30], none⟩ 3).2.1 (by decide) (by decide),
   (c4_index.2.2 sampleForest 0 ⟨[10, 20, 30], none⟩ (-1)).2.2.1 (by decide) (by decide),
   by decide,
   (c4_index.2.2 sampleForest 0 ⟨[10, 20, 30], none⟩ (-4)).2.2.2 (by decide) (by decide)⟩

--------------------------------------------------------------------------
-- Claim C9
--------------------------------------------------------------------------

/-- The claim's notion of an ASCII single-character token, from the spec's
list: bracket, parenthesis, union, equal, colon, attribute sign, wildcard and
separator. -/
def asciiSingleCharToken (c : Char) : Bool :=
  c ∈ (['[', ']', '(', ')', '|', '=', ':', '@', '*', '/'] : List Char)

theorem splitAtChar_eq_none {q : Char} {rest : Str} (h : q ∉ rest) :
    splitAtChar q rest = none := by
  induction rest with
  | nil => rfl
  | cons c r ih =>
    rw [List.mem_cons, not_or] at h
    unfold splitAtChar
    rw [if_neg (fun hc => h.1 hc.symm)]
    rw [ih h.2]
    rfl

/-- Claim C9, counterexample: a quote character is neither an ASCII
single-character token (per the claim's list) nor an identifier-start
character, yet a quoted string tokenizes successfully, so the claim's
antecedent is too broad: it omits the number, minus, dot and quote lexeme
starts. -/
theorem c9_counterexample :
    asciiSingleCharToken '\'' = false ∧ identifierStart '\'' = false ∧
    tokenizePath ['\'', 'a', '\''] = some (.ok [⟨.string, ['a']⟩]) := by decide

/-- Claim C9 as amended: at any point of the tokenizing loop, a lexeme
beginning with a character that starts no lexeme class (its table class is
lNil, or it is 128 or above and not an identifier start), a minus not
followed by a digit, and an unterminated quoted string each make the
tokenizer return ErrPathSyntax. -/
theorem c9_amended :
    (∀ (fuel : Nat) (c : Char) (rest : Str),
      (c.toNat < 128 → lexHint0Class c = .lNil) →
      (128 ≤ c.toNat → identifierStart c = false) →
      tokenizeLoop (fuel + 1) (c :: rest) = some (.error .pathSyntax)) ∧
    (∀ (fuel : Nat) (rest : Str), rest.takeWhile decimal = [] →
      tokenizeLoop (fuel + 1) ('-' :: rest) = some (.error .pathSyntax)) ∧
    (∀ (fuel : Nat) (q : Char) (rest : Str), (q = '\'' ∨ q = '"') → q ∉ rest →
      tokenizeLoop (fuel + 1) (q :: rest) = some (.error .pathSyntax)) := by
  refine ⟨?_, ?_, ?_⟩
  · intro fuel c rest h1 h2
    by_cases hc : c.toNat < 128
    · have hcl := h1 hc
      simp [tokenizeLoop, tokenizeLexeme, hc, hcl]
    · have hi := h2 (Nat.le_of_not_lt hc)
      simp [tokenizeLoop, tokenizeLexeme, hc, hi]
  · intro fuel rest h
    have hlt : ('-' : Char).toNat < 128 := by decide
    have hcl : lexHint0Class '-' = .lSub := by decide
    simp [tokenizeLoop, tokenizeLexeme, hlt, hcl, tokenizeMinus, h]
  · intro fuel q rest hq hn
    have hlt : q.toNat < 128 := by rcases hq with rfl | rfl <;> decide
    have hcl : lexHint0Class q = .lQuo := by rcases hq with rfl | rfl <;> decide
    simp [tokenizeLoop, tokenizeLexeme, hlt, hcl, tokenizeQuote, splitAtChar_eq_none hn]

/-- Claim C9 witness: an exclamation mark, a bare minus and an unterminated
string each fail at concrete inputs. -/
theorem c9_witness :
    tokenizeLoop 1 ['!'] = some (.error .pathSyntax) ∧
    tokenizeLoop 1 ['-'] = some (.error .pathSyntax) ∧
    tokenizeLoop 1 ['\'', 'a'] = some (.error .pathSyntax) :=
  ⟨c9_amended.1 0 '!' [] (fun _ => by decide) (fun h => absurd h (by decide)),
   c9_amended.2.1 0 [] (by decide),
   c9_amended.2.2 0 '\'' ['a'] (Or.inl rfl) (by decide)⟩

--------------------------------------------------------------------------
-- Claim C7
--------------------------------------------------------------------------

theorem pathLoopM_shape (toks : List Token) (h : toks ≠ []) :
    (pathLoopM toks).1 ≠ [] ∨ (pathLoopM toks).2 ≠ none := by
  unfold pathLoopM
  rw [if_neg h]
  split
  · right
    simp
  · split
    · left
      simp
    · split
      · left
        simp
      · left
        simp
      · left
        simp
      · left
        simp

theorem parsePath_ok_segments_ne_nil {toks : List Token} {P : Path}
    (h : parsePath toks = .ok P) : P.segments ≠ [] := by
  unfold parsePath at h
  cases hm : parsePathM toks with
  | mk segs o =>
    rw [hm] at h
    cases o with
    | some e => simp at h
    | none =>
      simp only at h
      cases h
      show segs ≠ []
      unfold parsePathM at hm
      by_cases h1 : peekID toks = .sep
      · rw [if_pos h1] at hm
        simp only [Prod.mk.injEq] at hm
        rw [← hm.1]
        simp
      · rw [if_neg h1] at hm
        by_cases h2 : peekID toks = .sepRecurse
        · rw [if_pos h2] at hm
          simp only [Prod.mk.injEq] at hm
          rw [← hm.1]
          simp
        · rw [if_neg h2] at hm
          by_cases h3 : peekID toks = .eol
          · rw [if_pos h3] at hm
            simp at hm
          · rw [if_neg h3] at hm
            have hne : toks ≠ [] := peekID_ne_eol_ne_nil h3
            rcases pathLoopM_shape toks hne with hs | hs
            · rw [hm] at hs
              exact hs
            · rw [hm] at hs
              exact absurd rfl hs

/-- The number of queue pops the BFS needs: one per node of each level. -/
def levelsFuel (f : Forest) : List Segment → List Nat → Nat
  | [], _ => 0
  | seg :: rest, ns =>
    if rest = [] then ns.length else ns.length + levelsFuel f rest (expandLevel f seg ns)

theorem traverseQ_last (f : Forest) (seg : Segment) :
    ∀ (ns : List Nat) (out : Candidates) (fuel : Nat), ns.length ≤ fuel →
      traverseQ f fuel (ns.map (fun e => (e, [seg]))) out =
        some ((ns.foldl (fun o e => o.merge (evalSegment f e seg)) out).list) := by
  intro ns
  induction ns with
  | nil =>
    intro out fuel h
    cases fuel <;> simp [traverseQ]
  | cons e ns ih =>
    intro out fuel h
    cases fuel with
    | zero => simp at h
    | succ fu =>
      rw [show traverseQ f (fu + 1)
            ((e :: ns).map (fun e => (e, [seg]))) out =
          traverseQ f fu (ns.map (fun e => (e, [seg])))
            (out.merge (evalSegment f e seg)) from by simp [traverseQ]]
      rw [List.foldl_cons]
      exact ih (out.merge (evalSegment f e seg)) fu (Nat.le_of_succ_le_succ h)

theorem traverseQ_level (f : Forest) (seg : Segment) (rest : List Segment) (hr : rest ≠ []) :
    ∀ (ns acc : List Nat) (out : Candidates) (fuel : Nat),
      traverseQ f (ns.length + fuel)
          (ns.map (fun e => (e, seg :: rest)) ++ acc.map (fun c => (c, rest))) out =
        traverseQ f fuel
          ((ns.foldl (fun a e => a ++ (evalSegment f e seg).list) acc).map
            (fun c => (c, rest))) out := by
  intro ns
  induction ns with
  | nil =>
    intro acc out fuel
    simp
  | cons e ns ih =>
    intro acc out fuel
    have hfu : (e :: ns).length + fuel = (ns.length + fuel) + 1 := by
      simp only [List.length_cons]
      omega
    rw [hfu]
    rw [show traverseQ f ((ns.length + fuel) + 1)
          ((e :: ns).map (fun e => (e, seg :: rest)) ++ acc.map (fun c => (c, rest))) out =
        traverseQ f (ns.length + fuel)
          ((ns.map (fun e => (e, seg :: rest)) ++ acc.map (fun c => (c, rest))) ++
            (evalSegment f e seg).list.map (fun c => (c, rest))) out from by
      simp [traverseQ, hr]]
    rw [List.append_assoc, ← List.map_append]
    rw [ih (acc ++ (evalSegment f e seg).list) out fuel]
    rw [List.foldl_cons]

theorem traverseQ_eq_levels (f : Forest) :
    ∀ (segs : List Segment), segs ≠ [] → ∀ (ns : List Nat) (out : Candidates) (fuel : Nat),
      levelsFuel f segs ns ≤ fuel →
      traverseQ f fuel (ns.map (fun e => (e, segs))) out =
        some ((traverseLevels f segs ns out).list) := by
  intro segs
  induction segs with
  | nil => intro h; exact absurd rfl h
  | cons seg rest ih =>
    intro _ ns out fuel hf
    by_cases hr : rest = []
    · subst hr
      have hlf : levelsFuel f [seg] ns = ns.length := by simp [levelsFuel]
      rw [hlf] at hf
      rw [traverseQ_last f seg ns out fuel hf]
      simp [traverseLevels]
    · have hlf : levelsFuel f (seg :: rest) ns =
          ns.length + levelsFuel f rest (expandLevel f seg ns) := by simp [levelsFuel, hr]
      rw [hlf] at hf
      have hfu : fuel = ns.length + (fuel - ns.length) := by omega
      rw [hfu]
      have hlv := traverseQ_level f seg rest hr ns [] out (fuel - ns.length)
      simp only [List.map_nil, List.append_nil] at hlv
      rw [hlv]
      rw [show (ns.foldl (fun a e => a ++ (evalSegment f e seg).list) []) =
        expandLevel f seg ns from rfl]
      rw [ih hr (expandLevel f seg ns) out (fuel - ns.length) (by omega)]
      simp [traverseLevels, hr]

/-- Claim C7: for every Path produced by a successful parse and every
starting element of a forest, the literal queue evaluation terminates - any
fuel of at least levelsFuel pops suffices, because each enqueued node carries
strictly fewer remaining segments than its producer and per-segment work is
bounded - and never surfaces an error: it returns `some` of exactly the
(possibly empty) list the evaluator produces, never `none` (fuel exhaustion
or the zero-remaining-segments panic). -/
theorem c7_termination (toks : List Token) (P : Path) (h : parsePath toks = .ok P)
    (f : Forest) (e : Nat) :
    ∀ fuel, levelsFuel f P.segments [e] ≤ fuel →
      traverseQ f fuel [(e, P.segments)] newCandidates = some (traverse f e P) := by
  intro fuel hf
  have hne := parsePath_ok_segments_ne_nil h
  have hq := traverseQ_eq_levels f P.segments hne [e] newCandidates fuel hf
  simpa [traverse] using hq

/-- Claim C7 witness: the compiled path a evaluated by the queue formulation
at the sample forest root, with exactly the computed fuel. -/
theorem c7_witness :
    traverseQ sampleForest (levelsFuel sampleForest samplePath.segments [0])
        [(0, samplePath.segments)] newCandidates =
      some (traverse sampleForest 0 samplePath) := by
  have h : parsePath [⟨.identifier, ['a']⟩] = .ok samplePath := by
    simp [parsePath, parsePathM, peekID, pathLoopM, parseSegment, parseSegmentExpr,
      parseSelector, parseName, parseFilters, samplePath]
  exact c7_termination [⟨.identifier, ['a']⟩] samplePath h sampleForest 0
    (levelsFuel sampleForest samplePath.segments [0]) (Nat.le_refl _)

--------------------------------------------------------------------------
-- Claim C5
--------------------------------------------------------------------------

theorem tokenizeLoop_step {fuel : Nat} {c : Char} {r : Str} {tok : Token} {remain : Str}
    (hlex : tokenizeLexeme (c :: r) = .ok (tok, remain)) (hnil : tok.id ≠ .nil) :
    tokenizeLoop (fuel + 1) (c :: r) =
      (match tokenizeLoop fuel (consumeWhitespace remain) with
       | none => none
       | some (.error e) => some (.error e)
       | some (.ok toks) => some (.ok (tok :: toks))) := by
  simp only [tokenizeLoop]
  rw [hlex]
  simp [hnil]

theorem head_ne_slash {p : Str} {ts : List Token}
    (h : tokenizePath p = some (.ok ts))
    (h2 : peekID ts ≠ .sep) (h3 : peekID ts ≠ .sepRecurse) :
    ∀ c r, p = c :: r → c ≠ '/' := by
  intro c r hp hc
  subst hp
  subst hc
  cases r with
  | nil =>
    rw [show tokenizePath ['/'] = some (.ok [⟨.sep, []⟩]) from by decide] at h
    simp only [Option.some.injEq, Except.ok.injEq] at h
    rw [← h] at h2
    exact h2 rfl
  | cons c2 r2 =>
    by_cases hc2 : c2 = '/'
    · subst hc2
      have hlex : tokenizeLexeme ('/' :: '/' :: r2) = .ok (⟨.sepRecurse, []⟩, r2) := by
        have hcl : lexHint0Class '/' = .lSep := by decide
        simp [tokenizeLexeme, tokenizeSlash, hcl]
      unfold tokenizePath at h
      rw [show consumeWhitespace ('/' :: '/' :: r2) = '/' :: '/' :: r2 from by
        simp [consumeWhitespace, List.dropWhile, whitespace]] at h
      simp only [List.length_cons] at h
      rw [tokenizeLoop_step hlex (by decide)] at h
      split at h
      · cases h
      · cases h
      · simp only [Option.some.injEq, Except.ok.injEq] at h
        rw [← h] at h3
        exact h3 rfl
    · have hlex : tokenizeLexeme ('/' :: c2 :: r2) = .ok (⟨.sep, []⟩, c2 :: r2) := by
        have hcl : lexHint0Class '/' = .lSep := by decide
        simp [tokenizeLexeme, tokenizeSlash, hcl, hc2]
      unfold tokenizePath at h
      rw [show consumeWhitespace ('/' :: c2 :: r2) = '/' :: c2 :: r2 from by
        simp [consumeWhitespace, List.dropWhile, whitespace]] at h
      simp only [List.length_cons] at h
      rw [tokenizeLoop_step hlex (by decide)] at h
      split at h
      · cases h
      · cases h
      · simp only [Option.some.injEq, Except.ok.injEq] at h
        rw [← h] at h2
        exact h2 rfl

theorem tokenizePath_dotslash {p : Str} {ts : List Token}
    (h : tokenizePath p = some (.ok ts))
    (hhead : ∀ c r, p = c :: r → c ≠ '/') :
    tokenizePath ('.' :: '/' :: p) = some (.ok (⟨.self, []⟩ :: ⟨.sep, []⟩ :: ts)) := by
  have hlexA : tokenizeLexeme ('.' :: '/' :: p) = .ok (⟨.self, []⟩, '/' :: p) := by
    have hcl : lexHint0Class '.' = .lDot := by decide
    simp [tokenizeLexeme, tokenizeDot, hcl]
  have hlexB : tokenizeLexeme ('/' :: p) = .ok (⟨.sep, []⟩, p) := by
    cases p with
    | nil => decide
    | cons c r =>
      have hc := hhead c r rfl
      have hcl : lexHint0Class '/' = .lSep := by decide
      simp [tokenizeLexeme, tokenizeSlash, hcl, hc]
  unfold tokenizePath
  rw [show consumeWhitespace ('.' :: '/' :: p) = '.' :: '/' :: p from by
    simp [consumeWhitespace, List.dropWhile, whitespace]]
  simp only [List.length_cons]
  rw [tokenizeLoop_step hlexA (by decide)]
  rw [show consumeWhitespace ('/' :: p) = '/' :: p from by
    simp [consumeWhitespace, List.dropWhile, whitespace]]
  rw [tokenizeLoop_step hlexB (by decide)]
  rw [show tokenizeLoop (p.length + 1) (consumeWhitespace p) = tokenizePath p from rfl]
  rw [h]

theorem parsePath_self_sep {ts : List Token} {P : Path}
    (h2 : peekID ts ≠ .sep) (h3 : peekID ts ≠ .sepRecurse)
    (h : parsePath ts = .ok P) :
    parsePath (⟨.self, []⟩ :: ⟨.sep, []⟩ :: ts) = .ok ⟨⟨[⟨.self, []⟩]⟩ :: P.segments⟩ := by
  have h4 : peekID ts ≠ .eol := by
    intro h4
    unfold parsePath parsePathM at h
    rw [if_neg h2, if_neg h3, if_pos h4] at h
    simp at h
  have hlts : pathLoopM ts = (P.segments, none) := by
    unfold parsePath parsePathM at h
    rw [if_neg h2, if_neg h3, if_neg h4] at h
    cases hm : pathLoopM ts with
    | mk segs o =>
      rw [hm] at h
      cases o with
      | some e => simp at h
      | none =>
        simp only [Except.ok.injEq] at h
        rw [← h]
  have hseg : parseSegment (⟨.self, []⟩ :: ⟨.sep, []⟩ :: ts) =
      .ok ⟨[⟨.self, []⟩], ⟨.sep, []⟩ :: ts, by simp only [List.length_cons]; omega⟩ := by
    simp [parseSegment, parseSegmentExpr, parseSelector, parseFilters, peekID]
  have hloop : pathLoopM (⟨.self, []⟩ :: ⟨.sep, []⟩ :: ts) =
      (⟨[⟨.self, []⟩]⟩ :: P.segments, none) := by
    unfold pathLoopM
    rw [if_neg (by simp)]
    rw [hseg]
    simp [hlts]
  unfold parsePath parsePathM
  rw [if_neg (by simp [peekID]), if_neg (by simp [peekID]), if_neg (by simp [peekID])]
  rw [hloop]

theorem traverse_self_cons (f : Forest) (e : Nat) (segs : List Segment) (h : segs ≠ []) :
    traverse f e ⟨(⟨[⟨.self, []⟩]⟩ : Segment) :: segs⟩ = traverse f e ⟨segs⟩ := by
  unfold traverse
  simp only [traverseLevels, if_neg h]
  rw [show expandLevel f (⟨[⟨.self, []⟩]⟩ : Segment) [e] = [e] from by
    simp [expandLevel, evalSegment, evalSegmentExpr, Selector.eval, applyFilters,
      Candidates.merge, Candidates.add, newCandidates, mergeScan, largeListSize]]

/-- Claim C5, counterexample: the path " /a" (leading blank, then slash)
compiles successfully and does not begin with the slash character, yet
prefixing "./" yields "./ /a", whose token stream is self sep sep ident and
fails to compile; so the claim's evaluation equivalence cannot even be
stated for this p, and the claim as worded (on path strings) is false. -/
theorem c5_counterexample :
    CompilePath [' ', '/', 'a'] =
      some (.ok ⟨[rootSegment, ⟨[⟨.childrenByTag [] ['a'], []⟩]⟩]⟩) ∧
    ([' ', '/', 'a'] : Str).head? ≠ some '/' ∧
    CompilePath ('.' :: '/' :: [' ', '/', 'a']) = some (.error .pathSyntax) := by
  refine ⟨?_, by decide, ?_⟩
  · have h1 : tokenizePath [' ', '/', 'a'] =
        some (.ok [⟨.sep, []⟩, ⟨.identifier, ['a']⟩]) := by decide
    simp [CompilePath, h1, parsePath, parsePathM, peekID, pathLoopM, parseSegment,
      parseSegmentExpr, parseSelector, parseName, parseFilters]
  · have h1 : tokenizePath ['.', '/', ' ', '/', 'a'] =
        some (.ok [⟨.self, []⟩, ⟨.sep, []⟩, ⟨.sep, []⟩, ⟨.identifier, ['a']⟩]) := by decide
    simp [CompilePath, h1, parsePath, parsePathM, peekID, pathLoopM, parseSegment,
      parseSegmentExpr, parseSelector, parseName, parseFilters]

/-- Claim C5 as amended: for every path string p whose tokenization succeeds
with a token stream not beginning with a separator (sep or sep_recurse) and
whose parse succeeds, the string "./" ++ p also compiles - to the self
segment prepended to p's segments - and evaluating it at any element of any
forest yields exactly the element sequence of evaluating p there. -/
theorem c5_amended (p : Str) (ts : List Token) (P : Path)
    (h1 : tokenizePath p = some (.ok ts))
    (h2 : peekID ts ≠ .sep) (h3 : peekID ts ≠ .sepRecurse)
    (h4 : parsePath ts = .ok P) :
    CompilePath p = some (.ok P) ∧
    CompilePath ('.' :: '/' :: p) =
      some (.ok ⟨(⟨[⟨.self, []⟩]⟩ : Segment) :: P.segments⟩) ∧
    ∀ (f : Forest) (e : Nat),
      traverse f e ⟨(⟨[⟨.self, []⟩]⟩ : Segment) :: P.segments⟩ = traverse f e P := by
  have hhead := head_ne_slash h1 h2 h3
  have htok := tokenizePath_dotslash h1 hhead
  have hparse := parsePath_self_sep h2 h3 h4
  refine ⟨?_, ?_, ?_⟩
  · unfold CompilePath
    rw [h1]
    show some (parsePath ts) = _
    rw [h4]
  · unfold CompilePath
    rw [htok]
    show some (parsePath (⟨.self, []⟩ :: ⟨.sep, []⟩ :: ts)) = _
    rw [hparse]
  · intro f e
    have hne := parsePath_ok_segments_ne_nil h4
    have ht := traverse_self_cons f e P.segments hne
    rw [ht]

/-- Claim C5 witness: the path a and the path ./a, evaluated over the sample
forest. -/
theorem c5_witness :
    CompilePath ['a'] = some (.ok samplePath) ∧
    CompilePath ['.', '/', 'a'] =
      some (.ok ⟨(⟨[⟨.self, []⟩]⟩ : Segment) :: samplePath.segments⟩) ∧
    traverse sampleForest 0 ⟨(⟨[⟨.self, []⟩]⟩ : Segment) :: samplePath.segments⟩ =
      traverse sampleForest 0 samplePath := by
  have h1 : tokenizePath ['a'] = some (.ok [⟨.identifier, ['a']⟩]) := by decide
  have h4 : parsePath [⟨.identifier, ['a']⟩] = .ok samplePath := by
    simp [parsePath, parsePathM, peekID, pathLoopM, parseSegment, parseSegmentExpr,
      parseSelector, parseName, parseFilters, samplePath]
  have hc := c5_amended ['a'] [⟨.identifier, ['a']⟩] samplePath h1 (by decide) (by decide) h4
  exact ⟨hc.1, hc.2.1, hc.2.2 sampleForest 0⟩

end Etree
